import Mathlib

/- Shallow embedding of the turbowish-mocks terminal dashboard renderer
   (src/widgets.rs and the compositor in src/main.rs).

   Machine integers: the source uses u16 cell coordinates and usize/u32
   counters.  Additions never matter to the properties checked here, so
   positions are modelled as Nat or Int; every subtraction the source
   performs on unsigned integers is modelled either with `checkedSub`
   (None = the subtraction underflows, which panics in a debug build) or
   with `wrapSub16` (the release-mode wrap modulo 2^16), as noted at each
   definition.

   f32 arithmetic: the bar chart and scrollbar normalisations are modelled
   by `F32`, an extended-rational carrier (finite rationals plus +inf,
   -inf, NaN) with IEEE-754 semantics for the operations the source uses
   (subtraction, division including division by zero, comparison where NaN
   compares false, multiplication, round-half-away-from-zero, saturating
   casts to unsigned integers).  Finite operations are modelled exactly;
   all concrete inputs evaluated below are exactly representable in f32
   and the claims analysed depend only on signs and on values that f32
   represents exactly, so no f32 rounding step is observable. -/

namespace TurboWish

/-- tui::style::Color; only identity of colors matters here. -/
inductive Color where
  | Black : Color
  | custom : Nat → Color
deriving DecidableEq

/-- tui::style::Style: optional foreground, optional background, BOLD flag. -/
structure Style where
  fg : Option Color
  bg : Option Color
  bold : Bool
deriving DecidableEq

/-- Style::default(): no colors, no modifiers. -/
def Style.default : Style := ⟨none, none, false⟩

/-- Style::fg builder. -/
def Style.withFg (s : Style) (c : Color) : Style := ⟨some c, s.bg, s.bold⟩

/-- Style::bg builder. -/
def Style.withBg (s : Style) (c : Color) : Style := ⟨s.fg, some c, s.bold⟩

/-- Style::add_modifier(Modifier::BOLD). -/
def Style.withBold (s : Style) : Style := ⟨s.fg, s.bg, true⟩

/-- One Buffer::set_string call: position, glyph run (chars = glyphs, the
source measures widths with str::chars().count()), style. -/
structure Write where
  x : ℤ
  y : ℤ
  text : List Char
  style : Style
deriving DecidableEq

/-- tui::layout::Rect (u16 fields). -/
structure Rect where
  x : Nat
  y : Nat
  width : Nat
  height : Nat
deriving DecidableEq

/-- Rect::right() = x + width. -/
def Rect.right (r : Rect) : Nat := r.x + r.width

/-- Rect::bottom() = y + height. -/
def Rect.bottom (r : Rect) : Nat := r.y + r.height

/-- Checked unsigned subtraction: `none` when the u16/usize subtraction in
the source would underflow (a panic in debug builds). -/
def checkedSub (a b : Nat) : Option Nat := if b ≤ a then some (a - b) else none

/-- Wrapping u16 subtraction (release-mode semantics of `a - b` on u16). -/
def wrapSub16 (a b : Nat) : Nat := (a % 2 ^ 16 + (2 ^ 16 - b % 2 ^ 16)) % 2 ^ 16

/-- Sum of the glyph widths of a list of writes. -/
def span (ws : List Write) : Nat := (ws.map fun w => w.text.length).sum

/-- The writes tile contiguously from `a`: each write starts exactly where
the previous one ended (no gap, no overlap). -/
def chainFromB : ℤ → List Write → Bool
  | _, [] => true
  | a, w :: ws => decide (w.x = a) && chainFromB (a + w.text.length) ws

/-- Extended-rational model of f32 for the arithmetic the source performs. -/
inductive F32 where
  | fin : ℚ → F32
  | posInf : F32
  | negInf : F32
  | nan : F32
deriving DecidableEq

/-- IEEE subtraction (exact on the finite values used here). -/
def F32.sub : F32 → F32 → F32
  | .fin a, .fin b => .fin (a - b)
  | .fin _, .posInf => .negInf
  | .fin _, .negInf => .posInf
  | .posInf, .fin _ => .posInf
  | .negInf, .fin _ => .negInf
  | .posInf, .negInf => .posInf
  | .negInf, .posInf => .negInf
  | _, _ => .nan

/-- IEEE division; x/0 is NaN for x = 0 and a signed infinity otherwise
(the dividends produced by the source are +0.0, never -0.0). -/
def F32.div : F32 → F32 → F32
  | .fin a, .fin b =>
    if b = 0 then (if a = 0 then .nan else if 0 < a then .posInf else .negInf)
    else .fin (a / b)
  | .fin _, .posInf => .fin 0
  | .fin _, .negInf => .fin 0
  | .posInf, .fin _ => .posInf
  | .negInf, .fin _ => .negInf
  | _, _ => .nan

/-- IEEE `<`: any comparison with NaN is false. -/
def F32.lt : F32 → F32 → Bool
  | .fin a, .fin b => decide (a < b)
  | .fin _, .posInf => true
  | .fin _, .negInf => false
  | .posInf, .fin _ => false
  | .negInf, .fin _ => true
  | .negInf, .posInf => true
  | _, _ => false

/-- IEEE multiplication (the source only multiplies by finite constants). -/
def F32.mul : F32 → F32 → F32
  | .fin a, .fin b => .fin (a * b)
  | .fin a, .posInf => if a = 0 then .nan else if 0 < a then .posInf else .negInf
  | .fin a, .negInf => if a = 0 then .nan else if 0 < a then .negInf else .posInf
  | .posInf, .fin b => if b = 0 then .nan else if 0 < b then .posInf else .negInf
  | .negInf, .fin b => if b = 0 then .nan else if 0 < b then .negInf else .posInf
  | .posInf, .posInf => .posInf
  | .posInf, .negInf => .negInf
  | .negInf, .posInf => .negInf
  | .negInf, .negInf => .posInf
  | _, _ => .nan

/-- Rust f32::round: nearest integer, halfway cases away from zero. -/
def roundHalfAway (q : ℚ) : ℤ := if 0 ≤ q then ⌊q + 1 / 2⌋ else -⌊-q + 1 / 2⌋

/-- f32::round lifted to the carrier (NaN and infinities unchanged). -/
def F32.round : F32 → F32
  | .fin q => .fin (roundHalfAway q : ℤ)
  | x => x

/-- Rust `as u32` on f32: saturating, NaN to 0, truncation toward zero. -/
def F32.toU32 : F32 → Nat
  | .fin q => if q ≤ 0 then 0 else min ⌊q⌋.toNat (2 ^ 32 - 1)
  | .posInf => 2 ^ 32 - 1
  | .negInf => 0
  | .nan => 0

/-- f32::floor lifted to the carrier (NaN and infinities unchanged). -/
def F32.fl : F32 → F32
  | .fin q => .fin (⌊q⌋ : ℤ)
  | x => x

/-- f32::ceil lifted to the carrier (NaN and infinities unchanged). -/
def F32.ce : F32 → F32
  | .fin q => .fin (⌈q⌉ : ℤ)
  | x => x

/-- Rust `as u16` on f32: saturating, NaN to 0, truncation toward zero. -/
def F32.toU16 : F32 → Nat
  | .fin q => if q ≤ 0 then 0 else min ⌊q⌋.toNat (2 ^ 16 - 1)
  | .posInf => 2 ^ 16 - 1
  | .negInf => 0
  | .nan => 0

/-- The free `clamp` helper at the bottom of widgets.rs, on f32 semantics:
`if x < min_val { min_val } else if x > max_val { max_val } else { x }`. -/
def clamp (x min_val max_val : F32) : F32 :=
  if F32.lt x min_val then min_val
  else if F32.lt max_val x then max_val
  else x

/-- The fixed 256-entry braille dot table `DOTS` from widgets.rs. -/
def DOTS : List Char := [
  '⠀', '⡀', '⠄', '⡄', '⠂', '⡂', '⠆', '⡆', '⠁', '⡁', '⠅', '⡅', '⠃', '⡃', '⠇', '⡇',
  '⢀', '⣀', '⢄', '⣄', '⢂', '⣂', '⢆', '⣆', '⢁', '⣁', '⢅', '⣅', '⢃', '⣃', '⢇', '⣇',
  '⠠', '⡠', '⠤', '⡤', '⠢', '⡢', '⠦', '⡦', '⠡', '⡡', '⠥', '⡥', '⠣', '⡣', '⠧', '⡧',
  '⢠', '⣠', '⢤', '⣤', '⢢', '⣢', '⢦', '⣦', '⢡', '⣡', '⢥', '⣥', '⢣', '⣣', '⢧', '⣧',
  '⠐', '⡐', '⠔', '⡔', '⠒', '⡒', '⠖', '⡖', '⠑', '⡑', '⠕', '⡕', '⠓', '⡓', '⠗', '⡗',
  '⢐', '⣐', '⢔', '⣔', '⢒', '⣒', '⢖', '⣖', '⢑', '⣑', '⢕', '⣕', '⢓', '⣓', '⢗', '⣗',
  '⠰', '⡰', '⠴', '⡴', '⠲', '⡲', '⠶', '⡶', '⠱', '⡱', '⠵', '⡵', '⠳', '⡳', '⠷', '⡷',
  '⢰', '⣰', '⢴', '⣴', '⢲', '⣲', '⢶', '⣶', '⢱', '⣱', '⢵', '⣵', '⢳', '⣳', '⢷', '⣷',
  '⠈', '⡈', '⠌', '⡌', '⠊', '⡊', '⠎', '⡎', '⠉', '⡉', '⠍', '⡍', '⠋', '⡋', '⠏', '⡏',
  '⢈', '⣈', '⢌', '⣌', '⢊', '⣊', '⢎', '⣎', '⢉', '⣉', '⢍', '⣍', '⢋', '⣋', '⢏', '⣏',
  '⠨', '⡨', '⠬', '⡬', '⠪', '⡪', '⠮', '⡮', '⠩', '⡩', '⠭', '⡭', '⠫', '⡫', '⠯', '⡯',
  '⢨', '⣨', '⢬', '⣬', '⢪', '⣪', '⢮', '⣮', '⢩', '⣩', '⢭', '⣭', '⢫', '⣫', '⢯', '⣯',
  '⠘', '⡘', '⠜', '⡜', '⠚', '⡚', '⠞', '⡞', '⠙', '⡙', '⠝', '⡝', '⠛', '⡛', '⠟', '⡟',
  '⢘', '⣘', '⢜', '⣜', '⢚', '⣚', '⢞', '⣞', '⢙', '⣙', '⢝', '⣝', '⢛', '⣛', '⢟', '⣟',
  '⠸', '⡸', '⠼', '⡼', '⠺', '⡺', '⠾', '⡾', '⠹', '⡹', '⠽', '⡽', '⠻', '⡻', '⠿', '⡿',
  '⢸', '⣸', '⢼', '⣼', '⢺', '⣺', '⢾', '⣾', '⢹', '⣹', '⢽', '⣽', '⢻', '⣻', '⢿', '⣿']

/-- BarChart widget (data carries the exact rational values of the f32
samples; all concrete samples used below are exactly representable). -/
structure BarChart where
  data : List ℚ
  min_y : ℚ
  max_y : ℚ
  color : Color
deriving DecidableEq

/-- One sample's bar height in BarChart::render:
`clamp((data[x] - min_y) / y_range, 0.0, 1.0)` scaled by 4, rounded,
cast `as u32` — on the F32 model. -/
def barHeight (v min_y max_y : ℚ) : Nat :=
  let y_range := F32.sub (F32.fin max_y) (F32.fin min_y)
  let height_norm :=
    clamp (F32.div (F32.sub (F32.fin v) (F32.fin min_y)) y_range) (F32.fin 0) (F32.fin 1)
  (F32.round (F32.mul height_norm (F32.fin 4))).toU32

/-- The `while x < self.data.len()` loop of BarChart::render over the
per-sample heights: state is (string, x, current_char).  A completed pair
is flushed only at the top of the next iteration (`x > 0 && x % 2 == 0`). -/
def barAccum : List Nat → Nat → Nat → List Char → List Char × Nat × Nat
  | [], x, cur, s => (s, x, cur)
  | h :: rest, x, cur, s =>
    let s2 := if 0 < x ∧ x % 2 = 0 then s ++ [DOTS.getD cur ' '] else s
    let cur2 := if 0 < x ∧ x % 2 = 0 then 0 else cur
    barAccum rest (x + 1) ((cur2 <<< 4) ||| ((1 <<< h) - 1)) s2

/-- BarChart::render: accumulate the braille string, flush a trailing
unpaired sample (`if x % 2 == 1`), then one set_string at the area origin. -/
def BarChart.render (self : BarChart) (area : Rect) : List Write :=
  let heights := self.data.map fun v => barHeight v self.min_y self.max_y
  let r := barAccum heights 0 0 []
  let s := if r.2.1 % 2 = 1 then r.1 ++ [DOTS.getD r.2.2 ' '] else r.1
  [⟨area.x, area.y, s, Style.default.withFg self.color⟩]

/-- SegmentedControl widget (labels as glyph lists; selected_index is u32). -/
structure SegmentedControl where
  labels : List (List Char)
  selected_index : Nat
  bg_color : Color
  fg_color : Color
deriving DecidableEq

/-- The `for (index, label)` loop of SegmentedControl::render: per segment,
a leading blank when `index > 0`, the label, a trailing blank when
`index < labels.len() - 1` (inside the loop `labels.len() >= 1`, so the
usize subtraction cannot underflow there).  Returns (writes, final x). -/
def segLoop (selected : Nat) (bgc fgc : Color) (total : Nat) (y : ℤ) :
    List (List Char) → Nat → ℤ → List Write × ℤ
  | [], _, x => ([], x)
  | label :: rest, index, x =>
    let style : Style :=
      if index = selected then ⟨some bgc, some fgc, false⟩ else ⟨some fgc, some bgc, false⟩
    let pre : List Write := if 0 < index then [⟨x, y, [' '], style⟩] else []
    let x1 := if 0 < index then x + 1 else x
    let lw : Write := ⟨x1, y, label, style⟩
    let x2 := x1 + label.length
    let post : List Write := if index < total - 1 then [⟨x2, y, [' '], style⟩] else []
    let x3 := if index < total - 1 then x2 + 1 else x2
    let r := segLoop selected bgc fgc total y rest (index + 1) x3
    (pre ++ lw :: post ++ r.1, r.2)

/-- SegmentedControl::render: left pill cap, the segment loop, right pill
cap.  The right cap's style reads `labels.len() - 1` unconditionally; that
usize subtraction underflows (debug panic) when the label list is empty,
modelled as `none`. -/
def SegmentedControl.render (self : SegmentedControl) (area : Rect) : Option (List Write) :=
  let left_edge_style : Style :=
    if self.selected_index = 0 then ⟨some self.fg_color, none, false⟩
    else ⟨some self.bg_color, none, false⟩
  let leftCap : Write := ⟨(area.x : ℤ), (area.y : ℤ), [''], left_edge_style⟩
  let r := segLoop self.selected_index self.bg_color self.fg_color self.labels.length
    (area.y : ℤ) self.labels 0 ((area.x : ℤ) + 1)
  match checkedSub self.labels.length 1 with
  | none => none
  | some last =>
    let right_edge_style : Style :=
      if self.selected_index = last then ⟨some self.fg_color, none, false⟩
      else ⟨some self.bg_color, none, false⟩
    some (leftCap :: r.1 ++ [⟨r.2, (area.y : ℤ), [''], right_edge_style⟩])

/-- Scrollbar widget (range bounds as exact rationals). -/
structure Scrollbar where
  min_val : ℚ
  max_val : ℚ
  min_range : ℚ
  max_range : ℚ
  color : Color
deriving DecidableEq

/-- Scrollbar::render: normalise both values, clamp to [0,1], map onto
`height - 2` track rows between the up/down indicator glyphs.  The u16
subtractions `area.height - 2` and `area.bottom() - 1` are checked:
`none` models the debug-build underflow panic for heights 0 and 1. -/
def Scrollbar.render (self : Scrollbar) (area : Rect) : Option (List Write) := do
  let range := F32.sub (F32.fin self.max_range) (F32.fin self.min_range)
  let min_val0 := F32.div (F32.sub (F32.fin self.min_val) (F32.fin self.min_range)) range
  let max_val0 := F32.div (F32.sub (F32.fin self.max_val) (F32.fin self.min_range)) range
  let min_val := clamp min_val0 (F32.fin 0) (F32.fin 1)
  let max_val := clamp max_val0 (F32.fin 0) (F32.fin 1)
  let hm2 ← checkedSub area.height 2
  let min_pos := (F32.mul min_val (F32.fin hm2)).fl.toU16 + area.y + 1
  let max_pos := (F32.mul max_val (F32.fin hm2)).ce.toU16 + area.y + 1
  let style := Style.default.withFg self.color
  let botm1 ← checkedSub area.bottom 1
  let track := (List.range' (area.y + 1) hm2).map fun y =>
    (⟨(area.x : ℤ), (y : ℤ), [if min_pos ≤ y ∧ y ≤ max_pos then '█' else '░'], style⟩ : Write)
  pure ([⟨(area.x : ℤ), (area.y : ℤ), [''], style⟩] ++ track ++
    [⟨(area.x : ℤ), (botm1 : ℤ), [''], style⟩])

/-- Powerline direction. -/
inductive PowerlineDirection where
  | LeftToRight : PowerlineDirection
  | RightToLeft : PowerlineDirection
deriving DecidableEq

/-- Powerline main-segment visibility. -/
inductive MainVisibility where
  | Visible : MainVisibility
  | Invisible : MainVisibility
deriving DecidableEq

/-- Powerline widget. -/
structure Powerline where
  labels : List (List Char)
  main_color : Color
  sub_color : Color
  sub_sub_bg_color : Color
  sub_sub_fg_color : Color
  sub_separator_color : Color
  direction : PowerlineDirection
  main_visibility : MainVisibility
deriving DecidableEq

/-- Segment style by (index, main_visibility) in Powerline::render. -/
def segStyle (p : Powerline) (index : Nat) : Style :=
  match index, p.main_visibility with
  | 0, .Visible => ((Style.default.withBg p.main_color).withFg .Black).withBold
  | 1, .Visible | 0, .Invisible => (Style.default.withBg p.sub_color).withFg .Black
  | _, _ => (Style.default.withBg p.sub_sub_bg_color).withFg p.sub_sub_fg_color

/-- Separator style and kind (`separator_is_sub`) by (index, visibility),
with the source's arm order: the index-0/1 transition arms take priority
over the `index < labels.len() - 1` guard and the trailing-separator arm. -/
def sepPick (p : Powerline) (index : Nat) : Style × Bool :=
  match index, p.main_visibility with
  | 0, .Visible => ((Style.default.withBg p.sub_color).withFg p.main_color, false)
  | 1, .Visible | 0, .Invisible =>
    ((Style.default.withBg p.sub_sub_bg_color).withFg p.sub_color, false)
  | i, _ =>
    if i < p.labels.length - 1 then
      ((Style.default.withBg p.sub_sub_bg_color).withFg p.sub_separator_color, true)
    else (Style.default.withFg p.sub_sub_bg_color, false)

/-- Separator glyph by (separator_is_sub, direction). -/
def sepGlyph (is_sub : Bool) (direction : PowerlineDirection) : Char :=
  match is_sub, direction with
  | false, .LeftToRight => ''
  | true, .LeftToRight => ''
  | false, .RightToLeft => ''
  | true, .RightToLeft => ''

/-- The background color of the segment style at the given index (the bg
component of segStyle, used to state the trailing-separator property). -/
def segBgAt (p : Powerline) (index : Nat) : Color :=
  match index, p.main_visibility with
  | 0, .Visible => p.main_color
  | 1, .Visible | 0, .Invisible => p.sub_color
  | _, _ => p.sub_sub_bg_color

/-- The nested fn write_and_advance of Powerline::render: right-to-left
first moves the cursor back by the glyph count, then writes; left-to-right
writes, then advances.  Cursor modelled on ℤ (in the source it is u16;
all claims below are used where the cursor stays in range). -/
def write_and_advance (x : ℤ) (y : ℤ) (text : List Char) (style : Style)
    (direction : PowerlineDirection) : Write × ℤ :=
  match direction with
  | .LeftToRight => (⟨x, y, text, style⟩, x + text.length)
  | .RightToLeft => (⟨x - text.length, y, text, style⟩, x - text.length)

/-- The `for (index, label)` loop of Powerline::render: per label, a
leading blank, the label, a trailing blank in the segment style, then one
separator glyph in the sepPick style. -/
def plLoop (p : Powerline) (y : ℤ) : List (List Char) → Nat → ℤ → List Write × ℤ
  | [], _, x => ([], x)
  | label :: rest, index, x =>
    let style := segStyle p index
    let r1 := write_and_advance x y [' '] style p.direction
    let r2 := write_and_advance r1.2 y label style p.direction
    let r3 := write_and_advance r2.2 y [' '] style p.direction
    let sep := sepPick p index
    let r4 := write_and_advance r3.2 y [sepGlyph sep.2 p.direction] sep.1 p.direction
    let rest_r := plLoop p y rest (index + 1) r4.2
    (r1.1 :: r2.1 :: r3.1 :: r4.1 :: rest_r.1, rest_r.2)

/-- Powerline::render: the cursor starts at area.x (left-to-right) or
area.right() (right-to-left). -/
def Powerline.render (p : Powerline) (area : Rect) : List Write :=
  let x0 : ℤ := match p.direction with
    | .LeftToRight => (area.x : ℤ)
    | .RightToLeft => (area.right : ℤ)
  (plLoop p (area.y : ℤ) p.labels 0 x0).1

/-- stretch::style::Dimension (padding descriptors; values are the exact
rationals of the f32 payloads). -/
inductive Dimension where
  | Undefined : Dimension
  | Auto : Dimension
  | Points : ℚ → Dimension
  | Percent : ℚ → Dimension
deriving DecidableEq

/-- stretch::geometry::Rect of Dimension (field `end` renamed to endv). -/
structure DimRect where
  start : Dimension
  endv : Dimension
  top : Dimension
  bottom : Dimension
deriving DecidableEq

/-- stretch::geometry::Rect of u16 (resolved padding; `end` as endv). -/
structure PadRect where
  start : Nat
  endv : Nat
  top : Nat
  bottom : Nat
deriving DecidableEq

/-- resolve_padding_dimension in main.rs: Auto/Undefined/Percent resolve
to 0; Points resolves with the Rust `length as u16` cast — saturating
truncation toward zero, not rounding. -/
def resolve_padding_dimension : Dimension → Nat
  | .Auto => 0
  | .Undefined => 0
  | .Percent _ => 0
  | .Points l => if l ≤ 0 then 0 else min ⌊l⌋.toNat (2 ^ 16 - 1)

/-- resolve_padding in main.rs. -/
def resolve_padding (padding : DimRect) : PadRect :=
  ⟨resolve_padding_dimension padding.start, resolve_padding_dimension padding.endv,
   resolve_padding_dimension padding.top, resolve_padding_dimension padding.bottom⟩

/-- Modelled from the spec: the spec's `round(v)` for fixed padding sides
("fixed units round to integer cells"), i.e. rounding to the nearest
integer, halfway away from zero for nonnegative v. -/
def roundSpec (q : ℚ) : ℤ := ⌊q + 1 / 2⌋

/- A layout node tree (mutual with its child list); node ids stand for
the opaque stretch::node::Node handles. -/
mutual
/-- Layout tree node: an id and the ordered children. -/
inductive LTree where
  | node : Nat → LTreeList → LTree
deriving DecidableEq
inductive LTreeList where
  | nil : LTreeList
  | cons : LTree → LTreeList → LTreeList
deriving DecidableEq
end

mutual
/-- Pre-order list of node ids of a tree. -/
def preorder : LTree → List Nat
  | .node n kids => n :: preorderList kids
def preorderList : LTreeList → List Nat
  | .nil => []
  | .cons t ts => preorder t ++ preorderList ts
end

/-- The Renderer's two HashMaps: node → widget and node → background
color (keys unique, as in any map). -/
structure Registry (α : Type) where
  widgets : List (Nat × α)
  bgColors : List (Nat × Color)
deriving DecidableEq

/-- HashMap::remove on an association list with unique keys: drop the
entry with the given key. -/
def removeKey (n : Nat) (l : List (Nat × α)) : List (Nat × α) :=
  l.filter fun p => p.1 ≠ n

/-- HashMap::remove also returns the removed value: the consume-once
"take" of the registry. -/
def takeKey (n : Nat) (l : List (Nat × α)) : Option α × List (Nat × α) :=
  (List.lookup n l, removeKey n l)

/-- Observable actions of one compositing pass: entering (visiting) a
node, filling a background over the padding rect, painting a widget into
the content rect. -/
inductive PaintEvent where
  | enter : Nat → PaintEvent
  | bgPaint : Nat → Rect → PaintEvent
  | widgetPaint : Nat → Rect → PaintEvent
deriving DecidableEq

/-- The node an event belongs to. -/
def PaintEvent.nodeOf : PaintEvent → Nat
  | .enter n => n
  | .bgPaint n _ => n
  | .widgetPaint n _ => n

/-- Project the visit (enter) events. -/
def PaintEvent.enterOf : PaintEvent → Option Nat
  | .enter n => some n
  | _ => none

mutual
/-- Renderer::render from main.rs (instrumented with an `enter` event per
visit): resolve the node's rectangle, translate by the world position to
the padding rect; take and paint a bound background over it; take a bound
widget and paint it into the content rect (the u16 subtractions
`width -= start + end` and `height -= top + bottom` wrap per wrapSub16,
the release-build behaviour); recurse into the children with origin at
the padding rect's corner.  `lay` is the solved layout (to_rect already
applied) and `sty` the node styles - both produced outside the core. -/
def renderNode (lay : Nat → Rect) (sty : Nat → DimRect) :
    LTree → Nat × Nat → Registry α → List PaintEvent × Registry α
  | .node n kids, world, reg =>
    let local_rect := lay n
    let local_padding := resolve_padding (sty n)
    let padding_rect : Rect :=
      ⟨local_rect.x + world.1, local_rect.y + world.2, local_rect.width, local_rect.height⟩
    let bgTake := takeKey n reg.bgColors
    let bgEvents : List PaintEvent := match bgTake.1 with
      | some _ => [.bgPaint n padding_rect]
      | none => []
    let wTake := takeKey n reg.widgets
    let wEvents : List PaintEvent := match wTake.1 with
      | some _ => [.widgetPaint n
          ⟨padding_rect.x + local_padding.start, padding_rect.y + local_padding.top,
           wrapSub16 padding_rect.width (local_padding.start + local_padding.endv),
           wrapSub16 padding_rect.height (local_padding.top + local_padding.bottom)⟩]
      | none => []
    let rest := renderList lay sty kids (padding_rect.x, padding_rect.y) ⟨wTake.2, bgTake.2⟩
    (.enter n :: bgEvents ++ wEvents ++ rest.1, rest.2)
def renderList (lay : Nat → Rect) (sty : Nat → DimRect) :
    LTreeList → Nat × Nat → Registry α → List PaintEvent × Registry α
  | .nil, _, reg => ([], reg)
  | .cons t ts, world, reg =>
    let r1 := renderNode lay sty t world reg
    let r2 := renderList lay sty ts world r1.2
    (r1.1 ++ r2.1, r2.2)
end

/-- Concatenated glyph text of a list of writes. -/
def joinTexts (ws : List Write) : List Char := (ws.map fun w => w.text).flatten

/-- Labels joined with exactly two blank cells between adjacent ones. -/
def sepJoin : List (List Char) → List Char
  | [] => []
  | [a] => a
  | a :: rest => a ++ [' ', ' '] ++ sepJoin rest

/-- Total cell width a Powerline consumes: 3 cells (two blanks and one
separator) plus the glyph count of each label. -/
def plSpan (labels : List (List Char)) : Nat :=
  (labels.map fun l => 3 + l.length).sum

/-- C1: claimed, the final completed pair is also emitted, so
BarChart::render([4,4], 0, 4, color) yields one glyph with both
sub-columns fully lit (DOTS[255]).  The code flushes a completed pair
only at the top of the next loop iteration and the trailing flush runs
only when `x % 2 == 1`, so for the even-length input [4,4] the rendered
string is empty: zero glyphs are written, not one. -/
theorem C1_even_data_drops_last_pair :
    BarChart.render ⟨[4, 4], 0, 4, Color.custom 0⟩ ⟨0, 0, 1, 1⟩
      = [⟨0, 0, [], ⟨some (Color.custom 0), none, false⟩⟩] := by decide

/-- C2: claimed, every widget paint routine is a guaranteed no-op on a
zero-area target.  Scrollbar::render on a height-0 area evaluates
`area.height - 2` on u16, which underflows (`none` here; a panic in a
debug build) instead of short-circuiting; and SegmentedControl::render on
a width-0 area still writes its caps and label (three writes). -/
theorem C2_zero_area_not_noop :
    Scrollbar.render ⟨0, 1, 0, 1, Color.custom 0⟩ ⟨0, 0, 1, 0⟩ = none ∧
    ∃ ws, SegmentedControl.render ⟨[['a']], 0, Color.custom 1, Color.custom 2⟩ ⟨0, 0, 0, 1⟩
      = some ws ∧ ws.length = 3 := by decide

/-- C3: claimed, padding exceeding the padding rect's size yields content
width/height 0, never an underflowing unsigned subtraction.  On a 1×1
node with fixed padding 1 on all sides, `content_rect.width -= start +
end` computes 1 - 2 on u16 and wraps to 65535 (a panic in a debug
build), so the bound widget is painted into a 65535×65535 rect. -/
theorem C3_content_rect_underflows :
    renderNode (fun _ => ⟨0, 0, 1, 1⟩) (fun _ => ⟨.Points 1, .Points 1, .Points 1, .Points 1⟩)
      (.node 0 .nil) (0, 0) (⟨[(0, ())], []⟩ : Registry Unit)
      = ([.enter 0, .widgetPaint 0 ⟨1, 1, 65535, 65535⟩], ⟨[], []⟩) := by decide

/-- C4 counterexample: with max == min (here both 0) a sample above min
divides to +inf, clamps to 1.0 and gets bar height 4, not the claimed 0. -/
theorem C4_counterexample : barHeight 1 0 0 ≠ 0 := by
  have h4 : barHeight 1 0 0 = 4 := by
    norm_num [barHeight, F32.sub, F32.div, clamp, F32.lt, F32.mul, F32.round, F32.toU32,
      roundHalfAway]
    decide
  simp [h4]

/-- C4 amended: when max == min, a sample equal to min yields NaN (the
`as u32` cast maps it to 0) and a sample below min yields -inf (clamped
to 0), but a sample above min yields +inf, which clamps to 1.0 and gives
height 4; no undefined value reaches the output in any case. -/
theorem C4_amended (v m : ℚ) : barHeight v m m = if m < v then 4 else 0 := by
  rcases lt_trichotomy v m with h | h | h
  · simp only [barHeight, sub_self, F32.sub, F32.div, clamp, F32.lt, F32.mul, F32.round,
      F32.toU32, roundHalfAway, sub_eq_zero, sub_pos, if_true, eq_self_iff_true,
      h.ne, lt_asymm h, if_false]
    norm_num [lt_asymm h]
  · subst h
    simp only [barHeight, sub_self, F32.sub, F32.div, clamp, F32.lt, F32.mul, F32.round,
      F32.toU32, roundHalfAway, sub_eq_zero, sub_pos, if_true, eq_self_iff_true, lt_irrefl,
      if_false]
    norm_num
  · simp only [barHeight, sub_self, F32.sub, F32.div, clamp, F32.lt, F32.mul, F32.round,
      F32.toU32, roundHalfAway, sub_eq_zero, sub_pos, if_true, eq_self_iff_true,
      h.ne.symm, h, if_false]
    norm_num [h]
    decide

/-- C8 counterexample: a fixed padding side of 1.5 resolves by the
`as u16` cast to 1, while the claimed round(1.5) is 2. -/
theorem C8_counterexample :
    ¬ ((resolve_padding_dimension (.Points (3 / 2)) : ℤ) = roundSpec (3 / 2)) := by
  have h1 : resolve_padding_dimension (.Points (3 / 2)) = 1 := by
    norm_num [resolve_padding_dimension]
  have h2 : roundSpec (3 / 2) = 2 := by
    norm_num [roundSpec]
  rw [h1, h2]
  decide

/-- C8 amended: every non-fixed padding side resolves to exactly 0 cells,
and a fixed side with value v >= 0 resolves to trunc(v) -- the saturating
f32-to-u16 `as` cast (floor for nonnegative v, capped at 65535) -- rather
than round(v). -/
theorem C8_amended (d : Dimension) :
    ((d = .Auto ∨ d = .Undefined ∨ ∃ w, d = .Percent w) → resolve_padding_dimension d = 0) ∧
    (∀ v : ℚ, d = .Points v → 0 ≤ v →
      (resolve_padding_dimension d : ℤ) = min ⌊v⌋ 65535) := by
  constructor
  · rintro (rfl | rfl | ⟨w, rfl⟩) <;> rfl
  · rintro v rfl hv
    rcases eq_or_lt_of_le hv with h | h
    · simp [resolve_padding_dimension, ← h]
    · have hfl : (0 : ℤ) ≤ ⌊v⌋ := Int.floor_nonneg.mpr hv
      simp only [resolve_padding_dimension, if_neg (not_le.mpr h)]
      push_cast [Int.toNat_of_nonneg hfl]
      norm_num

/-- C8 witness: the amended claim at the fixed side 1.5 (which truncates
to 1) and at an Auto side (which resolves to 0). -/
theorem C8_witness :
    (resolve_padding_dimension (.Points (3 / 2)) : ℤ) = min ⌊(3 / 2 : ℚ)⌋ 65535 ∧
    resolve_padding_dimension .Auto = 0 :=
  ⟨(C8_amended (.Points (3 / 2))).2 (3 / 2) rfl (by norm_num),
   (C8_amended .Auto).1 (Or.inl rfl)⟩

/-- C10: SegmentedControl::render is total exactly on non-empty label
lists: with at least one label the `labels.len() - 1` subtractions cannot
underflow and rendering succeeds, while on the empty list the right-cap
computation `labels.len() - 1` underflows usize (none). -/
theorem C10_nonempty_precondition (labels : List (List Char)) (sel : Nat) (bgc fgc : Color)
    (area : Rect) :
    (1 ≤ labels.length → (SegmentedControl.render ⟨labels, sel, bgc, fgc⟩ area).isSome = true) ∧
    SegmentedControl.render ⟨[], sel, bgc, fgc⟩ area = none := by
  constructor
  · intro h
    simp only [SegmentedControl.render, checkedSub, if_pos h]
    rfl
  · simp only [SegmentedControl.render, checkedSub]
    rfl

/-- C10 witness: a one-label control renders successfully. -/
theorem C10_witness :
    (SegmentedControl.render ⟨[['a']], 0, Color.custom 1, Color.custom 2⟩ ⟨0, 0, 3, 1⟩).isSome
      = true :=
  (C10_nonempty_precondition [['a']] 0 (Color.custom 1) (Color.custom 2) ⟨0, 0, 3, 1⟩).1
    (by decide)


theorem plLoop_nil (p : Powerline) (y : ℤ) (i : Nat) (x : ℤ) :
    plLoop p y [] i x = ([], x) := rfl

theorem plLoop_cons_ltr (p : Powerline) (hd : p.direction = .LeftToRight) (y : ℤ)
    (a : List Char) (rest : List (List Char)) (i : Nat) (x : ℤ) :
    plLoop p y (a :: rest) i x =
      (⟨x, y, [' '], segStyle p i⟩ :: ⟨x + 1, y, a, segStyle p i⟩ ::
       ⟨x + 1 + a.length, y, [' '], segStyle p i⟩ ::
       ⟨x + 2 + a.length, y, [sepGlyph (sepPick p i).2 p.direction], (sepPick p i).1⟩ ::
       (plLoop p y rest (i + 1) (x + 3 + a.length)).1,
       (plLoop p y rest (i + 1) (x + 3 + a.length)).2) := by
  have e2 : x + 1 + (a.length : ℤ) + 1 = x + 2 + a.length := by ring
  have e3 : x + 2 + (a.length : ℤ) + 1 = x + 3 + a.length := by ring
  simp only [plLoop, write_and_advance, hd, List.length_cons, List.length_nil]
  push_cast
  rw [e2, e3]

theorem plLoop_cons_rtl (p : Powerline) (hd : p.direction = .RightToLeft) (y : ℤ)
    (a : List Char) (rest : List (List Char)) (i : Nat) (x : ℤ) :
    plLoop p y (a :: rest) i x =
      (⟨x - 1, y, [' '], segStyle p i⟩ :: ⟨x - 1 - a.length, y, a, segStyle p i⟩ ::
       ⟨x - 2 - a.length, y, [' '], segStyle p i⟩ ::
       ⟨x - 3 - a.length, y, [sepGlyph (sepPick p i).2 p.direction], (sepPick p i).1⟩ ::
       (plLoop p y rest (i + 1) (x - 3 - a.length)).1,
       (plLoop p y rest (i + 1) (x - 3 - a.length)).2) := by
  have e2 : x - 1 - (a.length : ℤ) - 1 = x - 2 - a.length := by ring
  have e3 : x - 2 - (a.length : ℤ) - 1 = x - 3 - a.length := by ring
  simp only [plLoop, write_and_advance, hd, List.length_cons, List.length_nil]
  push_cast
  rw [e2, e3]

theorem span_append (u v : List Write) : span (u ++ v) = span u + span v := by
  simp [span]

theorem span_reverse (u : List Write) : span u.reverse = span u := by
  simp [span, List.sum_reverse]

theorem chainFromB_append (a : ℤ) (u v : List Write) :
    chainFromB a (u ++ v) = (chainFromB a u && chainFromB (a + span u) v) := by
  induction u generalizing a with
  | nil => simp [chainFromB, span]
  | cons w ws ih => simp [chainFromB, span, ih, Bool.and_assoc, add_assoc]

theorem plLoop_ltr (p : Powerline) (hd : p.direction = .LeftToRight) (y : ℤ)
    (l : List (List Char)) : ∀ (i : Nat) (x : ℤ),
    chainFromB x (plLoop p y l i x).1 = true ∧
    (plLoop p y l i x).2 = x + plSpan l ∧
    span (plLoop p y l i x).1 = plSpan l := by
  induction l with
  | nil => intro i x; simp [plLoop, chainFromB, span, plSpan]
  | cons a rest ih =>
    intro i x
    obtain ⟨ih1, ih2, ih3⟩ := ih (i + 1) (x + 3 + a.length)
    rw [plLoop_cons_ltr p hd y a rest i x]
    refine ⟨?_, ?_, ?_⟩
    · simp only [chainFromB, Bool.and_eq_true, decide_eq_true_eq, List.length_cons,
        List.length_nil, List.length_singleton]
      refine ⟨trivial, by push_cast; try ring, by push_cast; try ring, by push_cast; try ring, ?_⟩
      convert ih1 using 2
      ring
    · rw [ih2]; simp [plSpan]; ring
    · simp only [span, List.map_cons, List.sum_cons, List.length_singleton]
      have : span (plLoop p y rest (i + 1) (x + 3 + ↑a.length)).1 = plSpan rest := ih3
      simp only [span] at this
      rw [this]
      simp [plSpan]
      ring

theorem plLoop_rtl (p : Powerline) (hd : p.direction = .RightToLeft) (y : ℤ)
    (l : List (List Char)) : ∀ (i : Nat) (x : ℤ),
    chainFromB (x - plSpan l) ((plLoop p y l i x).1).reverse = true ∧
    (plLoop p y l i x).2 = x - plSpan l ∧
    span (plLoop p y l i x).1 = plSpan l := by
  induction l with
  | nil => intro i x; simp [plLoop, chainFromB, span, plSpan]
  | cons a rest ih =>
    intro i x
    obtain ⟨ih1, ih2, ih3⟩ := ih (i + 1) (x - 3 - a.length)
    have hSn : plSpan (a :: rest) = 3 + a.length + plSpan rest := by simp [plSpan]
    have hS : (plSpan (a :: rest) : ℤ) = 3 + (a.length : ℤ) + plSpan rest := by
      rw [hSn]; push_cast; ring
    rw [plLoop_cons_rtl p hd y a rest i x]
    refine ⟨?_, ?_, ?_⟩
    · simp only [List.reverse_cons, List.append_assoc, List.singleton_append]
      rw [chainFromB_append, Bool.and_eq_true]
      constructor
      · convert ih1 using 2
        rw [hS]; ring
      · rw [span_reverse]
        have h3 : span (plLoop p y rest (i + 1) (x - 3 - a.length)).1 = plSpan rest := ih3
        rw [h3]
        simp only [chainFromB, Bool.and_eq_true, decide_eq_true_eq, List.length_cons,
          List.length_nil, List.length_singleton]
        refine ⟨by rw [hS]; push_cast; ring, by rw [hS]; push_cast; ring,
          by rw [hS]; push_cast; ring, by rw [hS]; push_cast; ring, trivial⟩
    · rw [ih2, hS]; ring
    · simp only [span, List.map_cons, List.sum_cons, List.length_singleton]
      have h3 : span (plLoop p y rest (i + 1) (x - 3 - a.length)).1 = plSpan rest := ih3
      simp only [span] at h3
      rw [h3, hSn]
      ring

/-- C6: for every label list, rendering a Powerline left-to-right and
right-to-left consumes the same total number of cells (plSpan = sum of
3 + glyph count per label), and in both directions the writes tile the
consumed span contiguously with no gap and no overlap: left-to-right the
writes chain from area.x, right-to-left the reversed writes chain from
area.right() - total.  The hypothesis keeps the span inside the area so
the ℤ cursor coincides with the source's u16 cursor (no u16 underflow
during the right-to-left subtractions). -/
theorem C6_direction_invariance (labels : List (List Char)) (mc sc ssb ssf ssc : Color)
    (vis : MainVisibility) (area : Rect)
    (h : plSpan labels ≤ area.right) :
    span (Powerline.render ⟨labels, mc, sc, ssb, ssf, ssc, .LeftToRight, vis⟩ area)
      = plSpan labels ∧
    span (Powerline.render ⟨labels, mc, sc, ssb, ssf, ssc, .RightToLeft, vis⟩ area)
      = plSpan labels ∧
    chainFromB (area.x : ℤ)
      (Powerline.render ⟨labels, mc, sc, ssb, ssf, ssc, .LeftToRight, vis⟩ area) = true ∧
    chainFromB ((area.right : ℤ) - plSpan labels)
      ((Powerline.render ⟨labels, mc, sc, ssb, ssf, ssc, .RightToLeft, vis⟩ area).reverse)
      = true := by
  obtain ⟨l1, l2, l3⟩ := plLoop_ltr ⟨labels, mc, sc, ssb, ssf, ssc, .LeftToRight, vis⟩ rfl
    (area.y : ℤ) labels 0 (area.x : ℤ)
  obtain ⟨r1, r2, r3⟩ := plLoop_rtl ⟨labels, mc, sc, ssb, ssf, ssc, .RightToLeft, vis⟩ rfl
    (area.y : ℤ) labels 0 (area.right : ℤ)
  exact ⟨l3, r3, l1, r1⟩

theorem plLoop_ne_nil (p : Powerline) (y : ℤ) (a : List Char) (rest : List (List Char))
    (i : Nat) (x : ℤ) : (plLoop p y (a :: rest) i x).1 ≠ [] := by
  cases hdir : p.direction
  · rw [plLoop_cons_ltr p hdir y a rest i x]; simp
  · rw [plLoop_cons_rtl p hdir y a rest i x]; simp

theorem plLoop_getLast (p : Powerline) (y : ℤ) :
    ∀ (l : List (List Char)), l ≠ [] → ∀ (i : Nat) (x : ℤ), ∃ pos : ℤ,
      ((plLoop p y l i x).1).getLast? =
        some ⟨pos, y, [sepGlyph (sepPick p (i + l.length - 1)).2 p.direction],
              (sepPick p (i + l.length - 1)).1⟩ := by
  intro l
  induction l with
  | nil => intro hl; cases hl rfl
  | cons a rest ih =>
    intro _ i x
    cases rest with
    | nil =>
      cases hdir : p.direction
      · rw [plLoop_cons_ltr p hdir y a [] i x, plLoop_nil, hdir]
        exact ⟨x + 2 + a.length, rfl⟩
      · rw [plLoop_cons_rtl p hdir y a [] i x, plLoop_nil, hdir]
        exact ⟨x - 3 - a.length, rfl⟩
    | cons b rest2 =>
      have hidx : (i + 1) + (b :: rest2).length - 1 = i + (a :: b :: rest2).length - 1 := by
        simp; omega
      cases hdir : p.direction
      · rw [plLoop_cons_ltr p hdir y a (b :: rest2) i x]
        obtain ⟨pos, hp⟩ := ih (by simp) (i + 1) (x + 3 + a.length)
        refine ⟨pos, ?_⟩
        have hsplit :
            (⟨x, y, [' '], segStyle p i⟩ :: ⟨x + 1, y, a, segStyle p i⟩ ::
             ⟨x + 1 + a.length, y, [' '], segStyle p i⟩ ::
             ⟨x + 2 + a.length, y, [sepGlyph (sepPick p i).2 p.direction], (sepPick p i).1⟩ ::
             (plLoop p y (b :: rest2) (i + 1) (x + 3 + a.length)).1)
            = [⟨x, y, [' '], segStyle p i⟩, ⟨x + 1, y, a, segStyle p i⟩,
               ⟨x + 1 + a.length, y, [' '], segStyle p i⟩,
               ⟨x + 2 + a.length, y, [sepGlyph (sepPick p i).2 p.direction], (sepPick p i).1⟩]
              ++ (plLoop p y (b :: rest2) (i + 1) (x + 3 + a.length)).1 := rfl
        rw [hsplit, List.getLast?_append_of_ne_nil _ (plLoop_ne_nil p y b rest2 (i + 1) _),
          hp, hidx, hdir]
      · rw [plLoop_cons_rtl p hdir y a (b :: rest2) i x]
        obtain ⟨pos, hp⟩ := ih (by simp) (i + 1) (x - 3 - a.length)
        refine ⟨pos, ?_⟩
        have hsplit :
            (⟨x - 1, y, [' '], segStyle p i⟩ :: ⟨x - 1 - a.length, y, a, segStyle p i⟩ ::
             ⟨x - 2 - a.length, y, [' '], segStyle p i⟩ ::
             ⟨x - 3 - a.length, y, [sepGlyph (sepPick p i).2 p.direction], (sepPick p i).1⟩ ::
             (plLoop p y (b :: rest2) (i + 1) (x - 3 - a.length)).1)
            = [⟨x - 1, y, [' '], segStyle p i⟩, ⟨x - 1 - a.length, y, a, segStyle p i⟩,
               ⟨x - 2 - a.length, y, [' '], segStyle p i⟩,
               ⟨x - 3 - a.length, y, [sepGlyph (sepPick p i).2 p.direction], (sepPick p i).1⟩]
              ++ (plLoop p y (b :: rest2) (i + 1) (x - 3 - a.length)).1 := rfl
        rw [hsplit, List.getLast?_append_of_ne_nil _ (plLoop_ne_nil p y b rest2 (i + 1) _),
          hp, hidx, hdir]

theorem sepPick_last (p : Powerline) (h : p.labels ≠ []) :
    (sepPick p (p.labels.length - 1)).2 = false ∧
    (sepPick p (p.labels.length - 1)).1.fg = some (segBgAt p (p.labels.length - 1)) ∧
    ((sepPick p (p.labels.length - 1)).1.bg = none ↔
      (3 ≤ p.labels.length ∨ (p.labels.length = 2 ∧ p.main_visibility = .Invisible))) := by
  rcases hlab : p.labels with _ | ⟨a, rest⟩
  · cases h hlab
  rcases rest with _ | ⟨b, rest2⟩
  · cases hv : p.main_visibility <;>
      simp [hlab, sepPick, segBgAt, hv, Style.default, Style.withBg, Style.withFg]
  rcases rest2 with _ | ⟨c, rest3⟩
  · cases hv : p.main_visibility <;>
      simp [hlab, sepPick, segBgAt, hv, Style.default, Style.withBg, Style.withFg]
  · cases hv : p.main_visibility <;>
      simp [hlab, sepPick, segBgAt, hv, Style.default, Style.withBg, Style.withFg]

/-- C5 amended: the separator written after the final label always has
foreground equal to the final segment's background color and is the
main-kind glyph, but it carries no background fill only when the final
label's index is at least 2, or is 1 with main invisible; when the final
label is segment 0, or segment 1 with main visible, the index-based
match arms take priority and the separator carries a background fill. -/
theorem C5_amended (p : Powerline) (area : Rect) (h : p.labels ≠ []) :
    ∃ w, (Powerline.render p area).getLast? = some w ∧
      w.text = [sepGlyph false p.direction] ∧
      w.style.fg = some (segBgAt p (p.labels.length - 1)) ∧
      (w.style.bg = none ↔
        (3 ≤ p.labels.length ∨ (p.labels.length = 2 ∧ p.main_visibility = .Invisible))) := by
  obtain ⟨x0, hx0⟩ : ∃ x0 : ℤ, Powerline.render p area = (plLoop p (area.y : ℤ) p.labels 0 x0).1 := by
    cases hdir : p.direction
    · exact ⟨(area.x : ℤ), by simp [Powerline.render, hdir]⟩
    · exact ⟨(area.right : ℤ), by simp [Powerline.render, hdir]⟩
  obtain ⟨pos, hp⟩ := plLoop_getLast p (area.y : ℤ) p.labels h 0 x0
  obtain ⟨h1, h2, h3⟩ := sepPick_last p h
  rw [hx0, hp]
  refine ⟨_, rfl, ?_, ?_, ?_⟩
  · rw [Nat.zero_add, h1]
  · rw [Nat.zero_add]; exact h2
  · rw [Nat.zero_add]; exact h3

/-- C5 counterexample: with the single label list ["a"] (final label =
segment 0), main visible, left-to-right, the trailing separator's style
carries a background fill (the sub color), contradicting the claimed
"no background (fill) color". -/
theorem C5_counterexample :
    ∃ w, (Powerline.render ⟨[['a']], Color.custom 1, Color.custom 2, Color.custom 3,
      Color.custom 4, Color.custom 5, .LeftToRight, .Visible⟩ ⟨0, 0, 10, 1⟩).getLast? = some w ∧
      w.style.bg = some (Color.custom 2) ∧ w.style.fg = some (Color.custom 1) := by decide

/-- C5 witness: the amended claim evaluated at two labels with main
visible (final index 1): the separator has fg = sub-sub background and,
as the amended claim states, a background fill is present (bg ≠ none
since neither disjunct holds). -/
theorem C5_witness :
    ∃ w, (Powerline.render ⟨[['a'], ['b']], Color.custom 1, Color.custom 2, Color.custom 3,
      Color.custom 4, Color.custom 5, .LeftToRight, .Visible⟩ ⟨0, 0, 10, 1⟩).getLast? = some w ∧
      w.text = [sepGlyph false .LeftToRight] ∧
      w.style.fg = some (segBgAt ⟨[['a'], ['b']], Color.custom 1, Color.custom 2, Color.custom 3,
        Color.custom 4, Color.custom 5, .LeftToRight, .Visible⟩ 1) ∧
      (w.style.bg = none ↔ (3 ≤ 2 ∨ (2 = 2 ∧ MainVisibility.Visible = .Invisible))) := by
  have := C5_amended ⟨[['a'], ['b']], Color.custom 1, Color.custom 2, Color.custom 3,
    Color.custom 4, Color.custom 5, .LeftToRight, .Visible⟩ ⟨0, 0, 10, 1⟩ (by decide)
  simpa using this

theorem segLoop_nil (sel : Nat) (bgc fgc : Color) (total : Nat) (y : ℤ) (i : Nat) (x : ℤ) :
    segLoop sel bgc fgc total y [] i x = ([], x) := rfl

theorem segLoop_chain (sel : Nat) (bgc fgc : Color) (total : Nat) (y : ℤ) :
    ∀ (l : List (List Char)) (i : Nat) (x : ℤ),
      chainFromB x (segLoop sel bgc fgc total y l i x).1 = true ∧
      (segLoop sel bgc fgc total y l i x).2
        = x + span (segLoop sel bgc fgc total y l i x).1 := by
  intro l
  induction l with
  | nil => intro i x; simp [segLoop, chainFromB, span]
  | cons a rest ih =>
    intro i x
    by_cases h0 : 0 < i <;> by_cases h1 : i < total - 1 <;>
      obtain ⟨ih1, ih2⟩ := ih (i + 1) ((if 0 < i then x + 1 else x) + a.length +
        (if i < total - 1 then 1 else 0)) <;>
      simp only [h0, h1, if_true, if_false, add_zero] at ih1 ih2 <;>
      simp only [segLoop, h0, h1, if_true, if_false, List.singleton_append, List.cons_append,
        List.nil_append, chainFromB, span, List.map_cons, List.sum_cons, Bool.and_eq_true,
        decide_eq_true_eq, List.length_singleton]
    · refine ⟨⟨trivial, by push_cast; try ring, by push_cast; try ring, ?_⟩, ?_⟩
      · convert ih1 using 2
      · simp only [span] at ih2
        rw [ih2]
        push_cast
        ring
    · refine ⟨⟨trivial, by push_cast; try ring, ?_⟩, ?_⟩
      · convert ih1 using 2
      · simp only [span] at ih2
        rw [ih2]
        push_cast
        ring
    · refine ⟨⟨trivial, by push_cast; try ring, ?_⟩, ?_⟩
      · convert ih1 using 2
      · simp only [span] at ih2
        rw [ih2]
        push_cast
        ring
    · refine ⟨⟨trivial, ?_⟩, ?_⟩
      · convert ih1 using 2
      · simp only [span] at ih2
        rw [ih2]
        push_cast
        ring

theorem joinTexts_append (u v : List Write) :
    joinTexts (u ++ v) = joinTexts u ++ joinTexts v := by
  simp [joinTexts]

theorem segLoop_flatten (sel : Nat) (bgc fgc : Color) (total : Nat) (y : ℤ) :
    ∀ (l : List (List Char)) (i : Nat) (x : ℤ), 1 ≤ i → i + l.length = total → l ≠ [] →
      joinTexts (segLoop sel bgc fgc total y l i x).1 = [' '] ++ sepJoin l := by
  intro l
  induction l with
  | nil => intro i x _ _ hne; cases hne rfl
  | cons a rest ih =>
    intro i x hi htot _
    cases rest with
    | nil =>
      have h0 : 0 < i := hi
      have h1 : ¬ i < total - 1 := by simp at htot; omega
      simp [segLoop, h0, h1, joinTexts, sepJoin, segLoop_nil]
    | cons b rest2 =>
      have h0 : 0 < i := hi
      have h1 : i < total - 1 := by simp at htot; omega
      have hih := ih (i + 1) ((x + 1) + a.length + 1) (by omega)
        (by simp at htot ⊢; omega) (by simp)
      simp only [segLoop, h0, h1, if_true, if_false, List.singleton_append, List.cons_append,
        List.nil_append, joinTexts, List.map_cons, List.flatten_cons] at hih ⊢
      rw [hih]
      simp [sepJoin]

/-- C9 amended: for every list of at least two labels, SegmentedControl
renders exactly two blank-cell separator cells between each pair of
adjacent segments (a trailing blank styled as the left segment and a
leading blank styled as the right segment), not one: the body writes
between the two caps tile contiguously from area.x + 1 and their
concatenated glyphs equal the labels joined by two blanks. -/
theorem C9_amended (labels : List (List Char)) (sel : Nat) (bgc fgc : Color) (area : Rect)
    (h : 2 ≤ labels.length) :
    ∃ ws, SegmentedControl.render ⟨labels, sel, bgc, fgc⟩ area = some ws ∧
      joinTexts ((ws.drop 1).dropLast) = sepJoin labels ∧
      chainFromB ((area.x : ℤ) + 1) ((ws.drop 1).dropLast) = true := by
  obtain ⟨a, rest1, rfl⟩ : ∃ a rest1, labels = a :: rest1 := by
    cases labels with
    | nil => simp at h
    | cons a r => exact ⟨a, r, rfl⟩
  obtain ⟨b, rest2, rfl⟩ : ∃ b rest2, rest1 = b :: rest2 := by
    cases rest1 with
    | nil => simp at h
    | cons b r => exact ⟨b, r, rfl⟩
  refine ⟨(⟨(area.x : ℤ), (area.y : ℤ), ['\uE0B6'],
      if sel = 0 then ⟨some fgc, none, false⟩ else ⟨some bgc, none, false⟩⟩ : Write) ::
    ((segLoop sel bgc fgc (a :: b :: rest2).length (area.y : ℤ) (a :: b :: rest2) 0
        ((area.x : ℤ) + 1)).1 ++
      [⟨(segLoop sel bgc fgc (a :: b :: rest2).length (area.y : ℤ) (a :: b :: rest2) 0
          ((area.x : ℤ) + 1)).2, (area.y : ℤ), ['\uE0B4'],
        if sel = (a :: b :: rest2).length - 1 then ⟨some fgc, none, false⟩
        else ⟨some bgc, none, false⟩⟩]), by rfl, ?_, ?_⟩
  · simp only [List.drop_succ_cons, List.drop_zero, List.dropLast_concat]
    have h1 : (0 : Nat) < (a :: b :: rest2).length - 1 := by simp
    have hih := segLoop_flatten sel bgc fgc (a :: b :: rest2).length (area.y : ℤ)
      (b :: rest2) (0 + 1) (((area.x : ℤ) + 1) + a.length + 1) (by omega)
      (by simp only [List.length_cons]; omega) (by simp)
    rw [segLoop]
    rw [if_neg (lt_irrefl 0), if_neg (lt_irrefl 0), if_pos h1, if_pos h1]
    simp only [joinTexts, List.map_cons, List.flatten_cons, List.map_append,
      List.flatten_append, List.singleton_append, List.cons_append, List.nil_append]
    simp only [joinTexts] at hih
    rw [hih]
    simp [sepJoin]
  · simp only [List.drop_succ_cons, List.drop_zero, List.dropLast_concat]
    exact (segLoop_chain sel bgc fgc (a :: b :: rest2).length (area.y : ℤ)
      (a :: b :: rest2) 0 ((area.x : ℤ) + 1)).1

mutual
theorem visits_renderNode (lay : Nat → Rect) (sty : Nat → DimRect) (t : LTree)
    (world : Nat × Nat) (reg : Registry α) :
    (renderNode lay sty t world reg).1.filterMap PaintEvent.enterOf = preorder t := by
  cases t with
  | node n kids =>
    cases hbg : List.lookup n reg.bgColors <;> cases hw : List.lookup n reg.widgets <;>
      simp [renderNode, takeKey, hbg, hw, preorder, PaintEvent.enterOf,
        visits_renderList lay sty kids (((lay n).x + world.1, (lay n).y + world.2))]
theorem visits_renderList (lay : Nat → Rect) (sty : Nat → DimRect) (ts : LTreeList)
    (world : Nat × Nat) (reg : Registry α) :
    (renderList lay sty ts world reg).1.filterMap PaintEvent.enterOf = preorderList ts := by
  cases ts with
  | nil => simp [renderList, preorderList]
  | cons t ts2 =>
    simp [renderList, preorderList, visits_renderNode lay sty t world reg,
      visits_renderList lay sty ts2 world]
end

mutual
theorem registry_renderNode (lay : Nat → Rect) (sty : Nat → DimRect) (t : LTree)
    (world : Nat × Nat) (reg : Registry α) :
    (renderNode lay sty t world reg).2 =
      ⟨reg.widgets.filter fun p => decide (p.1 ∉ preorder t),
       reg.bgColors.filter fun p => decide (p.1 ∉ preorder t)⟩ := by
  cases t with
  | node n kids =>
    have hrec := registry_renderList lay sty kids
      (((lay n).x + world.1, (lay n).y + world.2)) ⟨removeKey n reg.widgets, removeKey n reg.bgColors⟩
    cases hbg : List.lookup n reg.bgColors <;> cases hw : List.lookup n reg.widgets <;>
      simp only [renderNode, takeKey, hbg, hw, preorder] <;>
      rw [hrec] <;>
      simp only [removeKey, List.filter_filter] <;>
      exact congrArg₂ Registry.mk
        (List.filter_congr fun a _ => by
          simp [List.mem_cons, not_or, Bool.and_comm])
        (List.filter_congr fun a _ => by
          simp [List.mem_cons, not_or, Bool.and_comm])
theorem registry_renderList (lay : Nat → Rect) (sty : Nat → DimRect) (ts : LTreeList)
    (world : Nat × Nat) (reg : Registry α) :
    (renderList lay sty ts world reg).2 =
      ⟨reg.widgets.filter fun p => decide (p.1 ∉ preorderList ts),
       reg.bgColors.filter fun p => decide (p.1 ∉ preorderList ts)⟩ := by
  cases ts with
  | nil => simp [renderList, preorderList]
  | cons t ts2 =>
    have h1 := registry_renderNode lay sty t world reg
    have h2 := registry_renderList lay sty ts2 world (renderNode lay sty t world reg).2
    simp only [renderList]
    rw [h2, h1]
    simp only [preorderList]
    exact congrArg₂ Registry.mk
      (by
        simp only [List.filter_filter]
        exact List.filter_congr fun a _ => by
          simp [List.mem_append, not_or, Bool.and_comm])
      (by
        simp only [List.filter_filter]
        exact List.filter_congr fun a _ => by
          simp [List.mem_append, not_or, Bool.and_comm])
end

mutual
theorem events_renderNode (lay : Nat → Rect) (sty : Nat → DimRect) (t : LTree)
    (world : Nat × Nat) (reg : Registry α) :
    List.Sublist ((renderNode lay sty t world reg).1.map PaintEvent.nodeOf)
      ((preorder t).flatMap fun n => [n, n, n]) := by
  cases t with
  | node n kids =>
    have hrec := events_renderList lay sty kids
      (((lay n).x + world.1, (lay n).y + world.2)) ⟨removeKey n reg.widgets, removeKey n reg.bgColors⟩
    cases hbg : List.lookup n reg.bgColors <;> cases hw : List.lookup n reg.widgets <;>
      simp only [renderNode, takeKey, hbg, hw, preorder, List.flatMap_cons, List.map_cons,
        List.map_append, List.map_nil, List.cons_append, List.nil_append, PaintEvent.nodeOf,
        List.cons_sublist_cons] <;>
      first
      | exact (hrec.cons n).cons n
      | exact hrec.cons n
      | exact hrec
theorem events_renderList (lay : Nat → Rect) (sty : Nat → DimRect) (ts : LTreeList)
    (world : Nat × Nat) (reg : Registry α) :
    List.Sublist ((renderList lay sty ts world reg).1.map PaintEvent.nodeOf)
      ((preorderList ts).flatMap fun n => [n, n, n]) := by
  cases ts with
  | nil => simp [renderList, preorderList]
  | cons t ts2 =>
    have h1 := events_renderNode lay sty t world reg
    have h2 := events_renderList lay sty ts2 world (renderNode lay sty t world reg).2
    simp only [renderList, preorderList, List.map_append, List.flatMap_append]
    exact List.Sublist.append h1 h2
end

/-- C7: one compositing pass over a finite tree with distinct node ids
visits each node exactly once (the enter events are exactly the
pre-order list), paints parents before their children (the event node
sequence is a sublist of the pre-order list with each node repeated
three times, so all of a node's paint events precede every descendant's),
and removes every painted node's widget and background entries; when
every bound node is in the tree, the registry holds no bindings after
the pass. -/
theorem C7_single_pass (lay : Nat → Rect) (sty : Nat → DimRect) (t : LTree)
    (world : Nat × Nat) (reg : Registry α)
    (h1 : (preorder t).Nodup)
    (h2 : ∀ p ∈ reg.widgets, p.1 ∈ preorder t)
    (h3 : ∀ p ∈ reg.bgColors, p.1 ∈ preorder t) :
    (∀ n ∈ preorder t,
      ((renderNode lay sty t world reg).1.filterMap PaintEvent.enterOf).count n = 1) ∧
    List.Sublist ((renderNode lay sty t world reg).1.map PaintEvent.nodeOf)
      ((preorder t).flatMap fun n => [n, n, n]) ∧
    (renderNode lay sty t world reg).2.widgets = [] ∧
    (renderNode lay sty t world reg).2.bgColors = [] := by
  refine ⟨?_, events_renderNode lay sty t world reg, ?_, ?_⟩
  · intro n hn
    rw [visits_renderNode]
    exact List.count_eq_one_of_mem h1 hn
  · rw [registry_renderNode]
    simp only [List.filter_eq_nil_iff]
    intro p hp
    simp [h2 p hp]
  · rw [registry_renderNode]
    simp only [List.filter_eq_nil_iff]
    intro p hp
    simp [h3 p hp]

/-- C7 witness: a two-node tree with a background bound on the root and
a widget on the child empties the registry in one pass. -/
theorem C7_witness :
    (∀ n ∈ preorder (.node 0 (.cons (.node 1 .nil) .nil)),
      ((renderNode (fun _ => ⟨0, 0, 3, 3⟩) (fun _ => ⟨.Auto, .Auto, .Auto, .Auto⟩)
        (.node 0 (.cons (.node 1 .nil) .nil)) (0, 0)
        (⟨[(1, ())], [(0, Color.custom 7)]⟩ : Registry Unit)).1.filterMap
          PaintEvent.enterOf).count n = 1) ∧
    List.Sublist ((renderNode (fun _ => ⟨0, 0, 3, 3⟩) (fun _ => ⟨.Auto, .Auto, .Auto, .Auto⟩)
        (.node 0 (.cons (.node 1 .nil) .nil)) (0, 0)
        (⟨[(1, ())], [(0, Color.custom 7)]⟩ : Registry Unit)).1.map PaintEvent.nodeOf)
      ((preorder (.node 0 (.cons (.node 1 .nil) .nil))).flatMap fun n => [n, n, n]) ∧
    (renderNode (fun _ => ⟨0, 0, 3, 3⟩) (fun _ => ⟨.Auto, .Auto, .Auto, .Auto⟩)
        (.node 0 (.cons (.node 1 .nil) .nil)) (0, 0)
        (⟨[(1, ())], [(0, Color.custom 7)]⟩ : Registry Unit)).2.widgets = [] ∧
    (renderNode (fun _ => ⟨0, 0, 3, 3⟩) (fun _ => ⟨.Auto, .Auto, .Auto, .Auto⟩)
        (.node 0 (.cons (.node 1 .nil) .nil)) (0, 0)
        (⟨[(1, ())], [(0, Color.custom 7)]⟩ : Registry Unit)).2.bgColors = [] :=
  C7_single_pass _ _ _ _ _ (by decide) (by decide) (by decide)

/-- C9 counterexample: rendering ["a", "b"] with selected index 0 puts
the labels at cells 1 and 4 with two blank cells (2 and 3) between
them, refuting "exactly one blank-cell separator (not two)". -/
theorem C9_counterexample :
    SegmentedControl.render ⟨[['a'], ['b']], 0, Color.custom 1, Color.custom 2⟩ ⟨0, 0, 6, 1⟩
      = some [⟨0, 0, [''], ⟨some (Color.custom 2), none, false⟩⟩,
              ⟨1, 0, ['a'], ⟨some (Color.custom 1), some (Color.custom 2), false⟩⟩,
              ⟨2, 0, [' '], ⟨some (Color.custom 1), some (Color.custom 2), false⟩⟩,
              ⟨3, 0, [' '], ⟨some (Color.custom 2), some (Color.custom 1), false⟩⟩,
              ⟨4, 0, ['b'], ⟨some (Color.custom 2), some (Color.custom 1), false⟩⟩,
              ⟨5, 0, [''], ⟨some (Color.custom 1), none, false⟩⟩] := by decide

/-- C9 witness: the amended claim evaluated at the two labels ["a"],
["b"]: the body writes spell "a" then two blanks then "b". -/
theorem C9_witness :
    ∃ ws, SegmentedControl.render ⟨[['a'], ['b']], 0, Color.custom 1, Color.custom 2⟩
        ⟨0, 0, 6, 1⟩ = some ws ∧
      joinTexts ((ws.drop 1).dropLast) = sepJoin [['a'], ['b']] ∧
      chainFromB (((0 : Nat) : ℤ) + 1) ((ws.drop 1).dropLast) = true :=
  C9_amended [['a'], ['b']] 0 (Color.custom 1) (Color.custom 2) ⟨0, 0, 6, 1⟩ (by decide)

/-- C6 witness: two labels, one with a multi-byte glyph, rendered on a
20-cell area in both directions: both spans equal plSpan and both
directions tile. -/
theorem C6_witness :
    span (Powerline.render ⟨[['✓'], ['b', 'c']], Color.custom 1, Color.custom 2, Color.custom 3,
        Color.custom 4, Color.custom 5, .LeftToRight, .Visible⟩ ⟨0, 0, 20, 1⟩)
      = plSpan [['✓'], ['b', 'c']] ∧
    span (Powerline.render ⟨[['✓'], ['b', 'c']], Color.custom 1, Color.custom 2, Color.custom 3,
        Color.custom 4, Color.custom 5, .RightToLeft, .Visible⟩ ⟨0, 0, 20, 1⟩)
      = plSpan [['✓'], ['b', 'c']] ∧
    chainFromB (((0 : Nat) : ℤ))
      (Powerline.render ⟨[['✓'], ['b', 'c']], Color.custom 1, Color.custom 2, Color.custom 3,
        Color.custom 4, Color.custom 5, .LeftToRight, .Visible⟩ ⟨0, 0, 20, 1⟩) = true ∧
    chainFromB ((((⟨0, 0, 20, 1⟩ : Rect).right : Nat) : ℤ) - plSpan [['✓'], ['b', 'c']])
      ((Powerline.render ⟨[['✓'], ['b', 'c']], Color.custom 1, Color.custom 2, Color.custom 3,
        Color.custom 4, Color.custom 5, .RightToLeft, .Visible⟩ ⟨0, 0, 20, 1⟩).reverse) = true :=
  C6_direction_invariance [['✓'], ['b', 'c']] (Color.custom 1) (Color.custom 2) (Color.custom 3)
    (Color.custom 4) (Color.custom 5) .Visible ⟨0, 0, 20, 1⟩ (by decide)

end TurboWish
